import Mathlib

/-!
# KryptoSpuR — FIFO lot-matching and tax-estimation engine

A shallow embedding of the computational core of `KryptoSpuR.py`:

* `fifo_gain` (source lines 80–95): FIFO matching of one sell against the
  buy rows of a pandas DataFrame, splitting the realized gain into a
  taxable part (held `< 365` days) and an exempt part (held `>= 365` days)
  and returning the surviving (partially consumed) buy rows.
* `estimated_tax` (source lines 98–103): the flat 25 % levy plus 5.5 %
  solidarity surcharge, floored at 0 for non-positive gains.
* the year-summary block (source lines 207–214): per-year aggregation of
  taxable and exempt gains over the sells of one calendar year.

Modelling choices:

* pandas `float` columns are modelled as exact rationals (`ℚ`);
* a pandas `Timestamp` at day granularity is modelled by its absolute day
  ordinal (`day : ℤ`, so `(sell.date - buy.date).days` becomes
  `sell.day - buy.day`) together with its calendar year (`year : ℤ`, used
  by the `dt.year == year` filter of the year summary);
* `DataFrame.sort_values('date')` guarantees only that the output is the
  input reordered ascending by date: pandas' default `kind='quicksort'` is
  documented as not stable, so the relative order of equal-dated rows is
  unspecified.  An executable embedding must still pick one concrete
  reordering; `sortByDate` below uses an insertion sort, i.e. one
  particular refinement of the underspecified tie order.  No theorem in
  this file asserts anything about the source's order of equal-dated rows;
* a DataFrame is a list of rows in row order.
-/

/-- One row of the per-user transactions DataFrame: columns `type`
(`"Kauf"` = buy, `"Verkauf"` = sell), `coin`, `quantity`, `price` and the
date, modelled as absolute day ordinal plus calendar year. -/
structure Tx where
  type : String
  coin : String
  quantity : ℚ
  price : ℚ
  day : ℤ
  year : ℤ
deriving DecidableEq, Repr

/-- Insert a row into a list that is (intended to be) sorted by date,
in front of the first row whose date is not smaller.  Helper for
`sortByDate`. -/
def ordInsert (b : Tx) : List Tx → List Tx
  | [] => [b]
  | c :: cs => if b.day ≤ c.day then b :: c :: cs else c :: ordInsert b cs

/-- `buys.sort_values('date')`: the rows reordered ascending by date.
The source uses pandas' default `kind='quicksort'`, whose tie order is
unspecified (pandas documents only `mergesort`/`stable` as stable); this
executable model is one concrete date-sort refining that underspecified
behaviour, and nothing proven below depends on its order of equal-dated
rows. -/
def sortByDate : List Tx → List Tx
  | [] => []
  | b :: bs => ordInsert b (sortByDate bs)

/-- The loop of `fifo_gain` (source lines 82–94), one step per buy row of
the already date-sorted list, threading the still-unmatched sell quantity
`qty`:

```
for _, b in buys.sort_values('date').iterrows():
    if qty <= 0:
        rem.append(b); continue
    lot = min(b['quantity'], qty)
    gain = lot * (sell['price'] - b['price'])
    days = (sell['date'] - b['date']).days
    if days >= 365: e_gain += gain
    else:          t_gain += gain
    b['quantity'] -= lot; qty -= lot
    if b['quantity'] > 0: rem.append(b)
```

Returns `(t_gain, e_gain, rem)`; the gains are accumulated on the way out
of the recursion, which yields the same rational sums as the source's
in-place `+=`. -/
def fifoLoop (sell : Tx) (qty : ℚ) : List Tx → ℚ × ℚ × List Tx
  | [] => (0, 0, [])
  | b :: bs =>
    if qty ≤ 0 then
      let r := fifoLoop sell qty bs
      (r.1, r.2.1, b :: r.2.2)
    else
      let lot := min b.quantity qty
      let gain := lot * (sell.price - b.price)
      let days := sell.day - b.day
      let b' : Tx := { b with quantity := b.quantity - lot }
      let r := fifoLoop sell (qty - lot) bs
      let tg := if 365 ≤ days then r.1 else r.1 + gain
      let eg := if 365 ≤ days then r.2.1 + gain else r.2.1
      if 0 < b'.quantity then (tg, eg, b' :: r.2.2) else (tg, eg, r.2.2)

/-- `fifo_gain(buys, sell)` (source lines 80–95): match a sell against the
buy rows oldest-first and return
`(t_gain, e_gain, rem)` — taxable gain, holding-period-exempt gain, and
the surviving buy rows. -/
def fifo_gain (buys : List Tx) (sell : Tx) : ℚ × ℚ × List Tx :=
  fifoLoop sell sell.quantity (sortByDate buys)

/-- `estimated_tax(gain, salary)` (source lines 98–103): 0 for
non-positive gains, otherwise the 25 % base levy plus the 5.5 %
solidarity surcharge on that base. -/
def estimated_tax (gain : ℚ) (salary : ℚ) : ℚ :=
  if gain ≤ 0 then 0
  else
    let base := gain * 0.25
    let soli := base * 0.055
    base + soli

/-- Instrumentation of the `fifo_gain` loop: the list of consumptions it
performs, in loop order.  One entry per buy row processed while unmatched
quantity remained: the row, the quantity `min b.quantity qty` taken from
it, the holding days and the per-lot gain, exactly as computed in the
loop body. -/
structure Consumed where
  lot : Tx
  amount : ℚ
  days : ℤ
  gain : ℚ
deriving DecidableEq, Repr

/-- The consumption trace of `fifoLoop` on the same inputs: which rows the
loop takes quantity from, and how much. -/
def fifoTaken (sell : Tx) (qty : ℚ) : List Tx → List Consumed
  | [] => []
  | b :: bs =>
    if qty ≤ 0 then fifoTaken sell qty bs
    else
      let lot := min b.quantity qty
      ⟨b, lot, sell.day - b.day, lot * (sell.price - b.price)⟩ ::
        fifoTaken sell (qty - lot) bs

/-- The lots consumed by `fifo_gain buys sell`, in consumption order. -/
def consumedLots (buys : List Tx) (sell : Tx) : List Consumed :=
  fifoTaken sell sell.quantity (sortByDate buys)

/-- Sum of the `quantity` column of a list of rows. -/
def totalQty (l : List Tx) : ℚ := (l.map Tx.quantity).sum

/-- Sum of the quantities taken by a consumption trace. -/
def amountSum (cs : List Consumed) : ℚ := (cs.map Consumed.amount).sum

/-- Sum of the per-lot gains of a consumption trace. -/
def gainSum (cs : List Consumed) : ℚ := (cs.map Consumed.gain).sum

/-- The rows that survive from a consumption trace: each consumed row with
its quantity reduced by the amount taken, kept only if the reduced
quantity is still positive (mirroring `if b['quantity'] > 0: rem.append(b)`). -/
def consumedSurvivors (cs : List Consumed) : List Tx :=
  cs.filterMap fun c =>
    if 0 < c.lot.quantity - c.amount then
      some { c.lot with quantity := c.lot.quantity - c.amount }
    else none

/-- Rewrite the `coin` column of one row. -/
def setCoin (f : String → String) (b : Tx) : Tx := { b with coin := f b.coin }

/-- `ydf = df[pd.to_datetime(df['date']).dt.year == year]` (source line
209): the rows of the queried calendar year, taken from the date-sorted
DataFrame (the source sorts `df` by date on line 194 before the year
block). -/
def yearRows (df : List Tx) (y : ℤ) : List Tx :=
  (sortByDate df).filter (fun r => r.year = y)

/-- `ydf[ydf.type=='Kauf']`: the buy rows the year summary hands to
`fifo_gain` — note they are restricted to the queried year and not
restricted by coin. -/
def yearBuys (df : List Tx) (y : ℤ) : List Tx :=
  (yearRows df y).filter (fun r => r.type = "Kauf")

/-- `ydf[ydf.type=='Verkauf']`: the sell rows the year summary replays. -/
def yearSells (df : List Tx) (y : ℤ) : List Tx :=
  (yearRows df y).filter (fun r => r.type = "Verkauf")

/-- `tg_sum` (source line 211): sum over the year's sells of the taxable
gain of `fifo_gain(ydf[ydf.type=='Kauf'], r)` — every sell is matched
against the same year-filtered buy rows. -/
def tg_sum (df : List Tx) (y : ℤ) : ℚ :=
  ((yearSells df y).map (fun r => (fifo_gain (yearBuys df y) r).1)).sum

/-- `net_gain` (source line 212): `tg_sum` plus the sum of the exempt
gains of the same per-sell matches. -/
def net_gain (df : List Tx) (y : ℤ) : ℚ :=
  tg_sum df y +
    ((yearSells df y).map (fun r => (fifo_gain (yearBuys df y) r).2.1)).sum

/-- `adjusted = salary + net_gain` (source line 213): what the year
summary actually reports alongside the gains. -/
def adjusted (df : List Tx) (y : ℤ) (salary : ℚ) : ℚ := salary + net_gain df y

/-! Concrete rows used by the closed instances below. -/

/-- Buy of 1 BTC at 20000 on day 0 of 2023. -/
def buyA1 : Tx := ⟨"Kauf", "BTC", 1, 20000, 0, 2023⟩

/-- Buy of 0.5 BTC at 25000 on day 151 of 2023. -/
def buyB1 : Tx := ⟨"Kauf", "BTC", 1/2, 25000, 151, 2023⟩

/-- Sell of 1.2 BTC at 30000 on day 396, in 2024. -/
def sellS1 : Tx := ⟨"Verkauf", "BTC", 6/5, 30000, 396, 2024⟩

/-- A single lot of 3 units at price 1, day 0. -/
def lotC2 : Tx := ⟨"Kauf", "BTC", 3, 1, 0, 2023⟩

/-- Oversell of 10 units against `lotC2` (unmatched remainder 7). -/
def sellTen : Tx := ⟨"Verkauf", "BTC", 10, 2, 400, 2024⟩

/-- Oversell of 20 units against `lotC2` (unmatched remainder 17). -/
def sellTwenty : Tx := ⟨"Verkauf", "BTC", 20, 2, 400, 2024⟩

/-- Buy dated in 2023 (day 100). -/
def buyEarly : Tx := ⟨"Kauf", "BTC", 1, 100, 100, 2023⟩

/-- Sell dated in 2024 (day 323, 223 days after `buyEarly`). -/
def sellLate : Tx := ⟨"Verkauf", "BTC", 1, 200, 323, 2024⟩

/-- History: a 2023 buy followed by a 2024 sell of the same coin. -/
def dfC6 : List Tx := [buyEarly, sellLate]

/-- Buy of 1 unit at price 0, day 0 of 2024. -/
def buySeed : Tx := ⟨"Kauf", "BTC", 1, 0, 0, 2024⟩

/-- First sell of 1 unit at price 10 in 2024. -/
def sellOne : Tx := ⟨"Verkauf", "BTC", 1, 10, 5, 2024⟩

/-- Second sell of 1 unit at price 10 in 2024. -/
def sellTwo : Tx := ⟨"Verkauf", "BTC", 1, 10, 6, 2024⟩

/-- History: one 1-unit buy and two 1-unit sells, all in 2024. -/
def dfC7 : List Tx := [buySeed, sellOne, sellTwo]

/-- Untouched lot dated day 3, listed first. -/
def lotX : Tx := ⟨"Kauf", "BTC", 1, 1, 3, 2023⟩

/-- Untouched lot dated day 2, listed second. -/
def lotY : Tx := ⟨"Kauf", "BTC", 1, 1, 2, 2023⟩

/-- Oldest lot (day 1), the only one touched by `sellW`. -/
def lotZ : Tx := ⟨"Kauf", "BTC", 5, 1, 1, 2023⟩

/-- Sell of 1 unit on day 10, consuming part of `lotZ` only. -/
def sellW : Tx := ⟨"Verkauf", "BTC", 1, 2, 10, 2023⟩

section SortLemmas

theorem ordInsert_perm (b : Tx) (l : List Tx) :
    List.Perm (ordInsert b l) (b :: l) := by
  induction l with
  | nil => simp [ordInsert]
  | cons c cs ih =>
    by_cases h : b.day ≤ c.day
    · simp [ordInsert, h]
    · simp only [ordInsert, if_neg h]
      exact (List.Perm.cons c ih).trans (List.Perm.swap b c cs)

theorem sortByDate_perm (l : List Tx) : List.Perm (sortByDate l) l := by
  induction l with
  | nil => simp [sortByDate]
  | cons b bs ih =>
    exact (ordInsert_perm b (sortByDate bs)).trans (List.Perm.cons b ih)

theorem totalQty_sortByDate (l : List Tx) : totalQty (sortByDate l) = totalQty l :=
  ((sortByDate_perm l).map Tx.quantity).sum_eq

/-- Dates are pairwise non-decreasing along the output of `ordInsert`,
provided they were along the input. -/
theorem ordInsert_pairwise (b : Tx) (l : List Tx)
    (h : l.Pairwise (fun x y => x.day ≤ y.day)) :
    (ordInsert b l).Pairwise (fun x y => x.day ≤ y.day) := by
  induction l with
  | nil => simp [ordInsert]
  | cons c cs ih =>
    rcases List.pairwise_cons.1 h with ⟨hc, hcs⟩
    by_cases hbc : b.day ≤ c.day
    · simp only [ordInsert, if_pos hbc]
      refine List.pairwise_cons.2 ⟨?_, h⟩
      intro x hx
      rcases List.mem_cons.1 hx with rfl | hx
      · exact hbc
      · exact le_trans hbc (hc x hx)
    · simp only [ordInsert, if_neg hbc]
      refine List.pairwise_cons.2 ⟨?_, ih hcs⟩
      intro x hx
      rcases List.mem_cons.1 ((ordInsert_perm b cs).mem_iff.1 hx) with rfl | hx
      · exact le_of_lt (lt_of_not_le hbc)
      · exact hc x hx

theorem sortByDate_pairwise (l : List Tx) :
    (sortByDate l).Pairwise (fun x y => x.day ≤ y.day) := by
  induction l with
  | nil => simp [sortByDate]
  | cons b bs ih => exact ordInsert_pairwise b (sortByDate bs) ih

end SortLemmas

section LoopLemmas

theorem totalQty_nil : totalQty [] = 0 := rfl

theorem totalQty_cons (b : Tx) (l : List Tx) :
    totalQty (b :: l) = b.quantity + totalQty l := by
  simp [totalQty]

theorem totalQty_nonneg (l : List Tx) (h : ∀ b ∈ l, 0 ≤ b.quantity) :
    0 ≤ totalQty l := by
  induction l with
  | nil => simp [totalQty]
  | cons b bs ih =>
    rw [totalQty_cons]
    have hb := h b (List.mem_cons_self b bs)
    have hbs := ih fun x hx => h x (List.mem_cons_of_mem b hx)
    linarith

/-- A loop entered with no unmatched quantity consumes nothing. -/
theorem fifoTaken_of_nonpos (sell : Tx) (qty : ℚ) (h : qty ≤ 0) :
    ∀ l : List Tx, fifoTaken sell qty l = [] := by
  intro l
  induction l with
  | nil => rfl
  | cons b bs ih => simp only [fifoTaken, if_pos h]; exact ih

/-- A loop entered with no unmatched quantity reports no gain and keeps
every row unchanged. -/
theorem fifoLoop_of_nonpos (sell : Tx) (qty : ℚ) (h : qty ≤ 0) :
    ∀ l : List Tx, fifoLoop sell qty l = (0, 0, l) := by
  intro l
  induction l with
  | nil => rfl
  | cons b bs ih => simp only [fifoLoop, if_pos h, ih]

/-- The two gain accumulators of the loop are exactly the sums of the
per-lot gains of the consumption trace, split at the 365-day boundary:
gains of lots held `< 365` days land in the first component (taxable),
gains of lots held `>= 365` days in the second (exempt). -/
theorem fifoLoop_gain_split (sell : Tx) :
    ∀ (l : List Tx) (qty : ℚ),
      (fifoLoop sell qty l).1 =
        gainSum ((fifoTaken sell qty l).filter (fun c => c.days < 365)) ∧
      (fifoLoop sell qty l).2.1 =
        gainSum ((fifoTaken sell qty l).filter (fun c => 365 ≤ c.days)) := by
  intro l
  induction l with
  | nil => intro qty; simp [fifoLoop, fifoTaken, gainSum]
  | cons b bs ih =>
    intro qty
    by_cases hq : qty ≤ 0
    · simpa [fifoLoop, fifoTaken, if_pos hq] using ih qty
    · have h1 := (ih (qty - min b.quantity qty)).1
      have h2 := (ih (qty - min b.quantity qty)).2
      by_cases hd : 365 ≤ sell.day - b.day
      · have hd' : ¬ (sell.day - b.day < 365) := not_lt.2 hd
        by_cases hb' : 0 < b.quantity - min b.quantity qty <;>
          simp [fifoLoop, fifoTaken, if_neg hq, if_pos hd, hb', List.filter_cons,
            hd, hd', gainSum, h1, h2, add_comm]
      · have hd' : sell.day - b.day < 365 := lt_of_not_le hd
        by_cases hb' : 0 < b.quantity - min b.quantity qty <;>
          simp [fifoLoop, fifoTaken, if_neg hq, if_neg hd, hb', List.filter_cons,
            hd, hd', gainSum, h1, h2, add_comm]

/-- The quantity consumed by the loop is `min qty (totalQty l)`: all of
the requested quantity if enough is available, everything available
otherwise. -/
theorem amountSum_fifoTaken (sell : Tx) :
    ∀ (l : List Tx) (qty : ℚ), 0 ≤ qty → (∀ b ∈ l, 0 ≤ b.quantity) →
      amountSum (fifoTaken sell qty l) = min qty (totalQty l) := by
  intro l
  induction l with
  | nil =>
    intro qty hq _
    simp [fifoTaken, amountSum, totalQty, min_eq_right hq]
  | cons b bs ih =>
    intro qty hq hl
    have hb0 : 0 ≤ b.quantity := hl b (List.mem_cons_self b bs)
    have hbs : ∀ x ∈ bs, 0 ≤ x.quantity := fun x hx => hl x (List.mem_cons_of_mem b hx)
    have hT : 0 ≤ totalQty bs := totalQty_nonneg bs hbs
    by_cases hqz : qty ≤ 0
    · have hq0 : qty = 0 := le_antisymm hqz hq
      subst hq0
      have hTT : 0 ≤ totalQty (b :: bs) := totalQty_nonneg _ hl
      rw [fifoTaken_of_nonpos sell 0 le_rfl]
      simp [amountSum, min_eq_left hTT]
    · have hqpos : 0 < qty := lt_of_not_le hqz
      have hlot : min b.quantity qty ≤ qty := min_le_right _ _
      have hrec := ih (qty - min b.quantity qty) (by linarith) hbs
      simp only [fifoTaken, if_neg hqz, amountSum, List.map_cons, List.sum_cons]
      rw [show ((fifoTaken sell (qty - min b.quantity qty) bs).map Consumed.amount).sum
            = amountSum (fifoTaken sell (qty - min b.quantity qty) bs) from rfl, hrec,
        totalQty_cons]
      rcases le_total b.quantity qty with hbq | hqb
      · rw [min_eq_left hbq]
        rw [← min_add_add_left b.quantity (qty - b.quantity) (totalQty bs)]
        ring_nf
      · rw [min_eq_right hqb]
        have : qty - qty = 0 := by ring
        rw [this, min_eq_left hT, add_zero,
          min_eq_left (by linarith : qty ≤ b.quantity + totalQty bs)]

/-- Conservation at the level of the surviving rows: the total remaining
quantity drops by exactly the quantity consumed. -/
theorem totalQty_fifoLoop (sell : Tx) :
    ∀ (l : List Tx) (qty : ℚ),
      totalQty (fifoLoop sell qty l).2.2 =
        totalQty l - amountSum (fifoTaken sell qty l) := by
  intro l
  induction l with
  | nil => intro qty; simp [fifoLoop, fifoTaken, amountSum, totalQty]
  | cons b bs ih =>
    intro qty
    by_cases hq : qty ≤ 0
    · simp [fifoLoop, fifoTaken, if_pos hq, totalQty_cons, ih qty,
        fifoTaken_of_nonpos sell qty hq, amountSum]
    · have hrec := ih (qty - min b.quantity qty)
      have hlotb : min b.quantity qty ≤ b.quantity := min_le_left _ _
      by_cases hb' : 0 < b.quantity - min b.quantity qty
      · simp only [fifoLoop, fifoTaken, if_neg hq, if_pos hb', totalQty_cons,
          amountSum, List.map_cons, List.sum_cons]
        rw [show ((fifoTaken sell (qty - min b.quantity qty) bs).map Consumed.amount).sum
              = amountSum (fifoTaken sell (qty - min b.quantity qty) bs) from rfl]
        rw [show totalQty (fifoLoop sell (qty - min b.quantity qty) bs).2.2
              = totalQty bs - amountSum (fifoTaken sell (qty - min b.quantity qty) bs)
            from hrec]
        ring
      · have hz : b.quantity - min b.quantity qty = 0 := le_antisymm (not_lt.1 hb') (by linarith)
        simp only [fifoLoop, fifoTaken, if_neg hq, if_neg hb', amountSum,
          List.map_cons, List.sum_cons, totalQty_cons]
        rw [show ((fifoTaken sell (qty - min b.quantity qty) bs).map Consumed.amount).sum
              = amountSum (fifoTaken sell (qty - min b.quantity qty) bs) from rfl]
        rw [show totalQty (fifoLoop sell (qty - min b.quantity qty) bs).2.2
              = totalQty bs - amountSum (fifoTaken sell (qty - min b.quantity qty) bs)
            from hrec]
        have : min b.quantity qty = b.quantity := by linarith
        rw [this]; ring

/-- Structure of the loop output: the consumed rows are exactly an
initial segment of the date-sorted input, the survivors of that segment
(reduced by what was taken, dropped at zero) come first in the result,
and the rest of the sorted input survives unchanged, in order. -/
theorem fifoLoop_rem_struct (sell : Tx) :
    ∀ (l : List Tx) (qty : ℚ),
      (fifoLoop sell qty l).2.2 =
        consumedSurvivors (fifoTaken sell qty l) ++
          l.drop (fifoTaken sell qty l).length ∧
      (fifoTaken sell qty l).map Consumed.lot =
        l.take (fifoTaken sell qty l).length := by
  intro l
  induction l with
  | nil => intro qty; simp [fifoLoop, fifoTaken, consumedSurvivors]
  | cons b bs ih =>
    intro qty
    by_cases hq : qty ≤ 0
    · rw [fifoTaken_of_nonpos sell qty hq, fifoLoop_of_nonpos sell qty hq]
      simp [consumedSurvivors]
    · have h1 := (ih (qty - min b.quantity qty)).1
      have h2 := (ih (qty - min b.quantity qty)).2
      by_cases hb' : 0 < b.quantity - min b.quantity qty
      · have hb2 : qty < b.quantity := by
          by_cases h : b.quantity ≤ qty
          · rw [min_eq_left h] at hb'; linarith
          · exact lt_of_not_le h
        simp [fifoLoop, fifoTaken, if_neg hq, hb', hb2, consumedSurvivors,
          List.filterMap_cons, h1, h2]
      · have hb2 : ¬ (qty < b.quantity) := by
          intro hlt
          rw [min_eq_right (le_of_lt hlt)] at hb'
          exact hb' (by linarith)
        simp [fifoLoop, fifoTaken, if_neg hq, hb', hb2, consumedSurvivors,
          List.filterMap_cons, h1, h2]

end LoopLemmas

section CoinLemmas

theorem setCoin_day (f : String → String) (b : Tx) : (setCoin f b).day = b.day := rfl

theorem setCoin_quantity (f : String → String) (b : Tx) :
    (setCoin f b).quantity = b.quantity := rfl

theorem setCoin_price (f : String → String) (b : Tx) : (setCoin f b).price = b.price := rfl

theorem setCoin_update_quantity (f : String → String) (b : Tx) (x : ℚ) :
    { setCoin f b with quantity := x } = setCoin f { b with quantity := x } := rfl

theorem ordInsert_map_setCoin (f : String → String) (b : Tx) (l : List Tx) :
    ordInsert (setCoin f b) (l.map (setCoin f)) = (ordInsert b l).map (setCoin f) := by
  induction l with
  | nil => rfl
  | cons c cs ih =>
    by_cases h : b.day ≤ c.day <;>
      simp [ordInsert, setCoin_day, h, ih]

theorem sortByDate_map_setCoin (f : String → String) (l : List Tx) :
    sortByDate (l.map (setCoin f)) = (sortByDate l).map (setCoin f) := by
  induction l with
  | nil => rfl
  | cons b bs ih => simp only [List.map_cons, sortByDate, ih, ordInsert_map_setCoin]

/-- The loop never reads the `coin` column of a buy row: rewriting coins
changes nothing but the coins carried along in the surviving rows. -/
theorem fifoLoop_map_setCoin (f : String → String) (sell : Tx) :
    ∀ (l : List Tx) (qty : ℚ),
      fifoLoop sell qty (l.map (setCoin f)) =
        ((fifoLoop sell qty l).1, (fifoLoop sell qty l).2.1,
          (fifoLoop sell qty l).2.2.map (setCoin f)) := by
  intro l
  induction l with
  | nil => intro qty; simp [fifoLoop]
  | cons b bs ih =>
    intro qty
    by_cases hq : qty ≤ 0
    · simp [fifoLoop, if_pos hq, ih qty]
    · by_cases hb' : 0 < b.quantity - min b.quantity qty <;>
        simp [fifoLoop, if_neg hq, hb', ih (qty - min b.quantity qty),
          setCoin_day, setCoin_quantity, setCoin_price] <;>
        simp [setCoin]

/-- The loop never reads the `coin` column of the sell row either. -/
theorem fifoLoop_setCoin_sell (f : String → String) (sell : Tx) :
    ∀ (l : List Tx) (qty : ℚ),
      fifoLoop (setCoin f sell) qty l = fifoLoop sell qty l := by
  intro l
  induction l with
  | nil => intro qty; rfl
  | cons b bs ih =>
    intro qty
    by_cases hq : qty ≤ 0
    · simp [fifoLoop, if_pos hq, ih qty]
    · by_cases hb' : 0 < b.quantity - min b.quantity qty <;>
        simp [fifoLoop, if_neg hq, hb', ih (qty - min b.quantity qty),
          setCoin_day, setCoin_price]

end CoinLemmas

/-- C1: for every Sell matched against purchase lots, the per-lot gain is
classified by holding period with an inclusive 365-day boundary: the
taxable accumulator is exactly the sum of the gains of consumed lots with
`(sell.date - lot.date).days < 365` and the exempt accumulator exactly
the sum over lots with `>= 365` days; in particular a lot held exactly
365 days is exempt (gain lands in the second component) and a lot held
364 days is taxable (gain lands in the first component). -/
theorem exemption_boundary_inclusive_365 :
    (∀ (buys : List Tx) (sell : Tx),
        (fifo_gain buys sell).1 =
          gainSum ((consumedLots buys sell).filter (fun c => c.days < 365)) ∧
        (fifo_gain buys sell).2.1 =
          gainSum ((consumedLots buys sell).filter (fun c => 365 ≤ c.days))) ∧
    fifo_gain [⟨"Kauf", "BTC", 1, 100, 0, 2023⟩] ⟨"Verkauf", "BTC", 1, 300, 365, 2024⟩ =
      (0, 200, []) ∧
    fifo_gain [⟨"Kauf", "BTC", 1, 100, 1, 2023⟩] ⟨"Verkauf", "BTC", 1, 300, 365, 2024⟩ =
      (200, 0, []) := by
  refine ⟨fun buys sell => fifoLoop_gain_split sell (sortByDate buys) sell.quantity,
    ?_, ?_⟩ <;>
    norm_num [fifo_gain, fifoLoop, sortByDate, ordInsert]

/-- C2 (counterexample): `fifo_gain` returns only `(t_gain, e_gain, rem)`
and therefore does not report the unmatched remainder of an oversell:
two oversells of the same lot whose unmatched remainders differ (7 vs 17
units) produce completely identical return values, so no component of
the result equals (or determines) the shortfall. -/
theorem oversell_shortfall_not_reported :
    fifo_gain [lotC2] sellTen = fifo_gain [lotC2] sellTwenty ∧
    sellTen.quantity - totalQty [lotC2] = 7 ∧
    sellTwenty.quantity - totalQty [lotC2] = 17 ∧
    totalQty [lotC2] < sellTen.quantity := by
  norm_num [fifo_gain, fifoLoop, sortByDate, ordInsert, totalQty,
    lotC2, sellTen, sellTwenty]

/-- C2 (amended): for a Sell whose quantity is at least the total
available lot quantity, matching completes (no exception can arise in
this total function) and consumes exactly the quantity that was
available — every lot is drained, the surviving rows hold total quantity
0 — but the unmatched remainder itself is not part of the return value. -/
theorem oversell_consumes_available (buys : List Tx) (sell : Tx)
    (hq : 0 ≤ sell.quantity) (hb : ∀ b ∈ buys, 0 ≤ b.quantity)
    (hge : totalQty buys ≤ sell.quantity) :
    amountSum (consumedLots buys sell) = totalQty buys ∧
    totalQty (fifo_gain buys sell).2.2 = 0 := by
  have hbs : ∀ b ∈ sortByDate buys, 0 ≤ b.quantity := fun b hbm =>
    hb b ((sortByDate_perm buys).mem_iff.1 hbm)
  have h1 : amountSum (consumedLots buys sell) =
      min sell.quantity (totalQty (sortByDate buys)) :=
    amountSum_fifoTaken sell (sortByDate buys) sell.quantity hq hbs
  rw [totalQty_sortByDate] at h1
  have h1' : amountSum (consumedLots buys sell) = totalQty buys := by
    rw [h1, min_eq_right hge]
  refine ⟨h1', ?_⟩
  have h3 := totalQty_fifoLoop sell (sortByDate buys) sell.quantity
  calc totalQty (fifo_gain buys sell).2.2
      = totalQty (sortByDate buys) - amountSum (consumedLots buys sell) := h3
    _ = 0 := by rw [totalQty_sortByDate, h1', sub_self]

/-- Closed instance of `oversell_consumes_available`: one 3-unit lot,
a 10-unit sell. -/
theorem oversell_consumes_available_witness :
    amountSum (consumedLots [lotC2] sellTen) = totalQty [lotC2] ∧
    totalQty (fifo_gain [lotC2] sellTen).2.2 = 0 :=
  oversell_consumes_available [lotC2] sellTen (by norm_num [sellTen])
    (by
      intro b hbm
      simp only [List.mem_singleton] at hbm
      rw [hbm]; norm_num [lotC2])
    (by norm_num [totalQty, lotC2, sellTen])

/-- C4: the tax estimator returns 0 for every `gain <= 0`, and for
`gain > 0` returns the 25 % base plus the 5.5 % surcharge on that base,
i.e. exactly `gain * 0.25 * 1.055`, computed exactly over `ℚ` with no
rounding; in this embedding it is a pure function of its arguments. -/
theorem estimated_tax_floor_and_rate (g s : ℚ) :
    (g ≤ 0 → estimated_tax g s = 0) ∧
    (0 < g → estimated_tax g s = g * 0.25 * 1.055) := by
  constructor
  · intro h; simp [estimated_tax, h]
  · intro h
    rw [estimated_tax, if_neg (not_le.2 h)]
    norm_num
    ring

/-- Closed instance of `estimated_tax_floor_and_rate` at `g = -3` and
`g = 1000`. -/
theorem estimated_tax_floor_and_rate_witness :
    estimated_tax (-3) 50000 = 0 ∧
    estimated_tax 1000 50000 = 1000 * 0.25 * 1.055 :=
  ⟨(estimated_tax_floor_and_rate (-3) 50000).1 (by norm_num),
   (estimated_tax_floor_and_rate 1000 50000).2 (by norm_num)⟩

/-- C5: for a fully matched sale (available quantity at least the sale's
quantity), the sum of the quantities taken across the consumed lots is
exactly the sale's quantity, and the total remaining quantity across the
surviving lots drops by exactly that amount. -/
theorem fifo_full_match_conservation (buys : List Tx) (sell : Tx)
    (hq : 0 ≤ sell.quantity) (hb : ∀ b ∈ buys, 0 ≤ b.quantity)
    (hle : sell.quantity ≤ totalQty buys) :
    amountSum (consumedLots buys sell) = sell.quantity ∧
    totalQty (fifo_gain buys sell).2.2 = totalQty buys - sell.quantity := by
  have hbs : ∀ b ∈ sortByDate buys, 0 ≤ b.quantity := fun b hbm =>
    hb b ((sortByDate_perm buys).mem_iff.1 hbm)
  have h1 : amountSum (consumedLots buys sell) =
      min sell.quantity (totalQty (sortByDate buys)) :=
    amountSum_fifoTaken sell (sortByDate buys) sell.quantity hq hbs
  rw [totalQty_sortByDate] at h1
  have h1' : amountSum (consumedLots buys sell) = sell.quantity := by
    rw [h1, min_eq_left hle]
  refine ⟨h1', ?_⟩
  have h3 := totalQty_fifoLoop sell (sortByDate buys) sell.quantity
  calc totalQty (fifo_gain buys sell).2.2
      = totalQty (sortByDate buys) - amountSum (consumedLots buys sell) := h3
    _ = totalQty buys - sell.quantity := by rw [totalQty_sortByDate, h1']

/-- Closed instance of `fifo_full_match_conservation`: 1.5 units
available, 1.2 sold. -/
theorem fifo_full_match_conservation_witness :
    amountSum (consumedLots [buyA1, buyB1] sellS1) = sellS1.quantity ∧
    totalQty (fifo_gain [buyA1, buyB1] sellS1).2.2 =
      totalQty [buyA1, buyB1] - sellS1.quantity :=
  fifo_full_match_conservation [buyA1, buyB1] sellS1 (by norm_num [sellS1])
    (by
      intro b hbm
      simp only [List.mem_cons, List.not_mem_nil, or_false] at hbm
      rcases hbm with rfl | rfl
      · norm_num [buyA1]
      · norm_num [buyB1])
    (by norm_num [totalQty, buyA1, buyB1, sellS1])

/-- C9: the salary argument has no influence on the estimated tax: for
every gain and any two salaries the results coincide. -/
theorem estimated_tax_salary_independent (g s1 s2 : ℚ) :
    estimated_tax g s1 = estimated_tax g s2 := rfl

/-- C6: contrary to the claim, the year summary matches a Sell of the
queried year only against Buy rows dated in that same year: with a 2023
buy and a 2024 sell of the same coin, the 2024 summary hands `fifo_gain`
an empty buy list and reports zero taxable and zero exempt gain, even
though matching the sell against the asset's own (2023) lot would yield
a taxable gain of 100. -/
theorem year_summary_ignores_prior_year_lots :
    yearBuys dfC6 2024 = [] ∧
    yearSells dfC6 2024 = [sellLate] ∧
    tg_sum dfC6 2024 = 0 ∧
    net_gain dfC6 2024 = 0 ∧
    fifo_gain [buyEarly] sellLate = (100, 0, []) := by
  have h1 : ¬ ("Verkauf" : String) = "Kauf" := by decide
  have h2 : ¬ ("Kauf" : String) = "Verkauf" := by decide
  norm_num [yearBuys, yearSells, yearRows, tg_sum, net_gain, fifo_gain, fifoLoop,
    sortByDate, ordInsert, dfC6, buyEarly, sellLate, h1, h2]

/-- C7: contrary to the claim, the year summary has no evolving ledger:
each Sell of the year is matched independently against the full
year-filtered buy rows (consumption by an earlier Sell is not visible to
a later one), so one 1-unit lot sold twice yields a reported taxable sum
of 20 although only 1 unit was ever bought (sequential matching would
report 10: the second sell finds an empty ledger); and the summary
computes `salary + net_gain` instead of any estimated tax. -/
theorem year_summary_rematches_full_lots :
    totalQty (yearBuys dfC7 2024) = 1 ∧
    (fifo_gain (yearBuys dfC7 2024) sellOne).1 = 10 ∧
    (fifo_gain (yearBuys dfC7 2024) sellTwo).1 = 10 ∧
    tg_sum dfC7 2024 = 20 ∧
    (fifo_gain (fifo_gain (yearBuys dfC7 2024) sellOne).2.2 sellTwo).1 = 0 ∧
    adjusted dfC7 2024 1000 = 1020 := by
  have h1 : ¬ ("Verkauf" : String) = "Kauf" := by decide
  have h2 : ¬ ("Kauf" : String) = "Verkauf" := by decide
  norm_num [yearBuys, yearSells, yearRows, tg_sum, net_gain, adjusted, fifo_gain,
    fifoLoop, sortByDate, ordInsert, totalQty, dfC7, buySeed, sellOne, sellTwo, h1, h2]

/-- C8 (counterexample): untouched lots do not keep their input order:
in the ledger `[lotX (day 3), lotY (day 2), lotZ (day 1)]` a 1-unit sale
touches only `lotZ`, yet the returned rows are `[lotZ - 1, lotY, lotX]` —
the untouched lots `lotX` and `lotY` appear with unchanged quantities but
in the opposite relative order (`[lotX, lotY]` is a sublist of the input,
`[lotY, lotX]` of the output), because the result is rebuilt in
date-sorted order. -/
theorem fifo_rem_reorders_untouched :
    (fifo_gain [lotX, lotY, lotZ] sellW).2.2 =
      [⟨"Kauf", "BTC", 4, 1, 1, 2023⟩, lotY, lotX] ∧
    List.Sublist [lotX, lotY] [lotX, lotY, lotZ] ∧
    List.Sublist [lotY, lotX] [(⟨"Kauf", "BTC", 4, 1, 1, 2023⟩ : Tx), lotY, lotX] ∧
    lotX ≠ lotY := by
  refine ⟨?_, ?_, ?_, ?_⟩
  · norm_num [fifo_gain, fifoLoop, sortByDate, ordInsert, lotX, lotY, lotZ, sellW]
  · decide
  · decide
  · decide

/-- C8 (amended): the only effect of consumption on the lots — each
touched lot's quantity is reduced by the amount taken, lots reaching
zero are dropped, untouched rows survive unchanged — but the surviving
rows are returned in date-sorted order: the result is exactly the
survivors of the consumed initial segment of the date-sorted ledger
followed, unchanged and in sorted order, by its untouched remainder;
in particular every untouched row is still present. -/
theorem fifo_rem_frame (buys : List Tx) (sell : Tx) :
    (fifo_gain buys sell).2.2 =
      consumedSurvivors (consumedLots buys sell) ++
        (sortByDate buys).drop (consumedLots buys sell).length ∧
    (∀ b ∈ sortByDate buys,
        b ∉ (consumedLots buys sell).map Consumed.lot →
        b ∈ (fifo_gain buys sell).2.2) := by
  have h := fifoLoop_rem_struct sell (sortByDate buys) sell.quantity
  have hrem : (fifo_gain buys sell).2.2 =
      consumedSurvivors (consumedLots buys sell) ++
        (sortByDate buys).drop (consumedLots buys sell).length := h.1
  refine ⟨hrem, ?_⟩
  intro b hbm hnot
  rw [hrem]
  have hsplit := List.take_append_drop (consumedLots buys sell).length (sortByDate buys)
  rw [← hsplit] at hbm
  have htake : (consumedLots buys sell).map Consumed.lot =
      (sortByDate buys).take (consumedLots buys sell).length := h.2
  rcases List.mem_append.1 hbm with htk | hdr
  · exact absurd (by rw [htake]; exact htk) hnot
  · exact List.mem_append.2 (Or.inr hdr)

/-- Closed instance of `fifo_rem_frame`: the untouched `lotX` survives
the sale `sellW`. -/
theorem fifo_rem_frame_witness :
    lotX ∈ (fifo_gain [lotX, lotY, lotZ] sellW).2.2 :=
  (fifo_rem_frame [lotX, lotY, lotZ] sellW).2 lotX (by decide)
    (by norm_num [consumedLots, fifoTaken, sortByDate, ordInsert,
      lotX, lotY, lotZ, sellW])

/-- C10: `fifo_gain` never inspects the coin column: rewriting the coin
of every buy row (by any function) leaves the gains unchanged and
rewrites the surviving rows' coins in the same way, and rewriting the
sell's coin changes nothing at all — so rows of a different asset are
consumed exactly like same-asset rows and per-asset restriction is
entirely the caller's responsibility. -/
theorem fifo_gain_coin_blind (f : String → String) (buys : List Tx) (sell : Tx) :
    fifo_gain (buys.map (setCoin f)) sell =
      ((fifo_gain buys sell).1, (fifo_gain buys sell).2.1,
        (fifo_gain buys sell).2.2.map (setCoin f)) ∧
    fifo_gain buys (setCoin f sell) = fifo_gain buys sell := by
  constructor
  · show fifoLoop sell sell.quantity (sortByDate (buys.map (setCoin f))) = _
    rw [sortByDate_map_setCoin, fifoLoop_map_setCoin f sell (sortByDate buys)]
    rfl
  · show fifoLoop (setCoin f sell) (setCoin f sell).quantity (sortByDate buys) = _
    rw [show (setCoin f sell).quantity = sell.quantity from rfl,
      fifoLoop_setCoin_sell f sell (sortByDate buys)]
    rfl
